import Mathlib

/-!
Verification development for the household load-shifting core of
`streamlit_app.py` (Forecasting-UK-Grid-Carbon-Intensity).

Modelling conventions:

* Hourly series are `List ℚ` in timestamp order (position = hour 0..23).
  The data model requires strictly increasing contiguous hourly timestamps,
  so the defensive `sort_index()` calls in the source are the identity on
  the positional representation and are not re-modelled.
* Python/numpy floats are modelled by exact rationals `ℚ`; "within
  floating-point tolerance" statements become exact equalities.
* The non-finite float values relevant to the claims are modelled
  explicitly: `FloatQ` (used by the renewable-share calculator) has
  `nan`/`posInf`/`negInf` constructors mirroring IEEE division by zero,
  and `relative_reduction` is an `Option ℚ` whose `none` stands for the
  non-finite float that `(tb - ts) / tb` produces when `tb = 0`.
* `pandas.Series.sort_values` is called with the default `kind='quicksort'`
  (numpy's introsort), which is NOT stable: the relative order of tied keys
  is an implementation detail of numpy.  The model uses a stable ascending
  sort on (position, value) pairs and models `ascending=False` faithfully
  as the reversal of the ascending permutation
  (`pandas.core.sorting.nargsort`, `indexer = indexer[::-1]`).  Because the
  program guarantees no particular tie order, every selection theorem below
  asserts only properties that are invariant under WHICH correctly sorted
  permutation the argsort returns: sums and counts, the key-value sequence
  at the selected hours, and the selected hour set when the keys are
  pairwise distinct are identical for every correct sort, stable or not.
  The one tie-sensitive statement is the concrete all-tied counterexample
  (hour 23 selected first under `max_renewable`), whose conclusion also
  holds for numpy's actual introsort: its single partition pass over 24
  tied keys leaves index 23 in place, and the reversal puts it first.
* The three `raise ValueError` sites in `run_shift_scenario` are modelled
  by the constructors of `EngineError`, matching the error-taxonomy names
  used by the design document.
-/

namespace GridCarbon

/-- The hardcoded canonical 24-hour household shape `HOUSEHOLD_PROFILE_RAW`
from the source, as exact rationals (`0.25 = 25/100`, ...). -/
def HOUSEHOLD_PROFILE_RAW : List ℚ :=
  [25/100, 23/100, 22/100, 22/100, 25/100,
   35/100, 55/100, 65/100, 60/100,
   55/100, 50/100, 48/100, 47/100, 50/100, 55/100,
   60/100, 75/100, 110/100, 120/100, 105/100,
   70/100, 55/100, 40/100, 30/100]

/-- `make_household_profile(daily_kwh)`: the raw shape scaled by
`daily_kwh / raw.sum()`. -/
def make_household_profile (daily_kwh : ℚ) : List ℚ :=
  let raw := HOUSEHOLD_PROFILE_RAW
  let scale := daily_kwh / raw.sum
  raw.map (fun w => w * scale)

/-- A float value as far as the renewable-share pipeline can observe it:
either an exact finite number or one of the non-finite IEEE values that
float division by zero produces. -/
inductive FloatQ where
  | num (q : ℚ)
  | posInf
  | negInf
  | nan
deriving DecidableEq, Repr

/-- Float division as performed by pandas on numeric columns: division by
zero does not raise but yields `nan` for `0/0` and a signed infinity
otherwise. -/
def fdiv (r g : ℚ) : FloatQ :=
  if g = 0 then
    if r = 0 then .nan else if 0 < r then .posInf else .negInf
  else .num (r / g)

/-- `Series.clip(lower=0.0, upper=1.0)`: finite values are clamped into
`[0,1]`, the infinities clip to the bounds, and `nan` passes through
unchanged (pandas `clip` does not replace NaN). -/
def clip01 : FloatQ → FloatQ
  | .num q => .num (if q < 0 then 0 else if 1 < q then 1 else q)
  | .posInf => .num 1
  | .negInf => .num 0
  | .nan => .nan

/-- `compute_renewable_share(df_day)`: per-hour
`RENEWABLE / GENERATION`, clipped to `[0,1]`.  The day slice is modelled
as its two columns. -/
def compute_renewable_share (renewable generation : List ℚ) : List FloatQ :=
  List.zipWith (fun r g => clip01 (fdiv r g)) renewable generation

/-- Value-comparison on (position, value) pairs: the key order used by
`sort_values(ascending=True)`. -/
def leSnd (a b : ℕ × ℚ) : Prop := a.2 ≤ b.2

/-- Reversed value-comparison on (position, value) pairs. -/
def geSnd (a b : ℕ × ℚ) : Prop := b.2 ≤ a.2

instance : DecidableRel leSnd := fun a b => inferInstanceAs (Decidable (a.2 ≤ b.2))

instance : DecidableRel geSnd := fun a b => inferInstanceAs (Decidable (b.2 ≤ a.2))

instance : IsTotal (ℕ × ℚ) leSnd := ⟨fun a b => le_total a.2 b.2⟩

instance : IsTrans (ℕ × ℚ) leSnd := ⟨fun _ _ _ hab hbc => le_trans hab hbc⟩

instance : IsTotal (ℕ × ℚ) geSnd := ⟨fun a b => le_total b.2 a.2⟩

instance : IsTrans (ℕ × ℚ) geSnd := ⟨fun _ _ _ hab hbc => le_trans hbc hab⟩

/-- `series.sort_values(ascending=True)` on a positional series: the
(position, value) pairs ordered by value.  The source uses the default
unstable `kind='quicksort'`; the model uses a stable sort, and theorems
about the selection assert only properties shared by every correctly
sorted permutation (see the header). -/
def sort_values_asc (s : List ℚ) : List (ℕ × ℚ) :=
  List.insertionSort leSnd s.enum

/-- `series.sort_values(ascending=False)`: pandas `nargsort` computes the
ascending permutation and reverses it (`indexer = indexer[::-1]`). -/
def sort_values_desc (s : List ℚ) : List (ℕ × ℚ) :=
  (sort_values_asc s).reverse

/-- The target-hour selection block of `run_shift_scenario`:
`sort_key.sort_values(...).index[:n_target_hours]`.  For
`low_intensity` the sort key is the carbon-intensity series (ascending),
for `max_renewable` it is the renewable-share series (descending). -/
def target_hours (strategy : String) (ci_series rshare : List ℚ) (k : ℕ) : List ℕ :=
  if strategy = "low_intensity" then
    ((sort_values_asc ci_series).take k).map Prod.fst
  else
    ((sort_values_desc rshare).take k).map Prod.fst

/-- Selection following the spec's words for MAX_RENEWABLE: the `k` hours
with the largest renewable-share value, descending, ties broken by
original timestamp order (stable sort). -/
def spec_targets_max (rshare : List ℚ) (k : ℕ) : List ℕ :=
  ((List.insertionSort geSnd rshare.enum).take k).map Prod.fst

/-- The error taxonomy of the design document; each constructor models one
of the `raise ValueError(...)` sites of `run_shift_scenario`,
distinguished in the source by message text. -/
inductive EngineError where
  | invalidSeriesLength (n : ℕ)
  | missingInput
  | invalidStrategy
deriving DecidableEq, Repr

/-- The dict returned by `run_shift_scenario` (the timestamp index is the
positional one and is not repeated). -/
structure ScenarioResult where
  ci : List ℚ
  baseline_load : List ℚ
  shifted_load : List ℚ
  baseline_emissions : List ℚ
  shifted_emissions : List ℚ
  total_baseline_emissions : ℚ
  total_shifted_emissions : ℚ
  relative_reduction : Option ℚ
deriving DecidableEq, Repr

/-- One iteration of the redistribution loop
`shifted_flex[ts] += per_hour`. -/
def bump (x : ℚ) (acc : List ℚ) (ts : ℕ) : List ℚ :=
  acc.set ts (acc.getD ts 0 + x)

/-- The body of `run_shift_scenario` after its validation gates (the
computation from the baseline profile to the returned dict). -/
def scenario_core (ci_series : List ℚ) (daily_kwh flexible_share : ℚ)
    (strategy : String) (rshare : List ℚ) (n_target_hours : ℕ) : ScenarioResult :=
  let baseline_load := make_household_profile daily_kwh
  let nonflex_load := baseline_load.map (fun x => x * (1 - flexible_share))
  let flex_load := baseline_load.map (fun x => x * flexible_share)
  let total_flex_energy := flex_load.sum
  let targets := target_hours strategy ci_series rshare n_target_hours
  let per_hour := total_flex_energy / (targets.length : ℚ)
  let shifted_flex := targets.foldl (bump per_hour) (List.replicate 24 (0 : ℚ))
  let shifted_load := List.zipWith (· + ·) nonflex_load shifted_flex
  let baseline_emissions := List.zipWith (· * ·) baseline_load ci_series
  let shifted_emissions := List.zipWith (· * ·) shifted_load ci_series
  let total_baseline := baseline_emissions.sum
  let total_shifted := shifted_emissions.sum
  { ci := ci_series
    baseline_load := baseline_load
    shifted_load := shifted_load
    baseline_emissions := baseline_emissions
    shifted_emissions := shifted_emissions
    total_baseline_emissions := total_baseline
    total_shifted_emissions := total_shifted
    relative_reduction :=
      if total_baseline = 0 then none
      else some ((total_baseline - total_shifted) / total_baseline) }

/-- `run_shift_scenario`: validation gates followed by the core
computation.  The renewable-share alignment `renewable_share.loc[index]`
is the identity on the positional representation when the series share the
24-hour index, which validity of the inputs guarantees.  The
unknown-strategy check sits textually after the load split in the source;
as the intervening code is pure and total, hoisting it is observationally
equivalent. -/
def run_shift_scenario (ci_series : List ℚ) (daily_kwh flexible_share : ℚ)
    (strategy : String) (renewable_share : Option (List ℚ)) (n_target_hours : ℕ) :
    Except EngineError ScenarioResult :=
  if ci_series.length ≠ 24 then
    .error (.invalidSeriesLength ci_series.length)
  else if strategy = "max_renewable" ∧ renewable_share = none then
    .error .missingInput
  else if strategy ≠ "low_intensity" ∧ strategy ≠ "max_renewable" then
    .error .invalidStrategy
  else
    .ok (scenario_core ci_series daily_kwh flexible_share strategy
          (renewable_share.getD []) n_target_hours)

/-! ### Elementwise list arithmetic -/

theorem sum_map_mul (l : List ℚ) (c : ℚ) :
    (l.map (fun x => x * c)).sum = l.sum * c := by
  induction l with
  | nil => simp
  | cons a t ih => simp only [List.map_cons, List.sum_cons, ih]; ring

theorem sum_zipWith_add : ∀ (l₁ l₂ : List ℚ), l₁.length = l₂.length →
    (List.zipWith (· + ·) l₁ l₂).sum = l₁.sum + l₂.sum
  | [], [], _ => by simp
  | [], _ :: _, h => by simp at h
  | _ :: _, [], h => by simp at h
  | a :: t₁, b :: t₂, h => by
    simp only [List.zipWith_cons_cons, List.sum_cons]
    rw [sum_zipWith_add t₁ t₂ (by simpa using h)]
    ring

theorem getD_map_mul : ∀ (l : List ℚ) (c : ℚ) (i : ℕ), i < l.length →
    (l.map (fun x => x * c)).getD i 0 = l.getD i 0 * c
  | [], _, i, h => by simp at h
  | a :: t, c, 0, _ => by simp
  | a :: t, c, i + 1, h => by
    simp only [List.map_cons, List.getD_cons_succ]
    exact getD_map_mul t c i (by simpa using h)

theorem getD_zipWith_add : ∀ (l₁ l₂ : List ℚ) (i : ℕ), i < l₁.length → i < l₂.length →
    (List.zipWith (· + ·) l₁ l₂).getD i 0 = l₁.getD i 0 + l₂.getD i 0
  | [], _, i, h, _ => by simp at h
  | _ :: _, [], i, _, h => by simp at h
  | a :: t₁, b :: t₂, 0, _, _ => by simp
  | a :: t₁, b :: t₂, i + 1, h₁, h₂ => by
    simp only [List.zipWith_cons_cons, List.getD_cons_succ]
    exact getD_zipWith_add t₁ t₂ i (by simpa using h₁) (by simpa using h₂)

theorem zipWith_add_replicate_zero : ∀ (l : List ℚ) (n : ℕ), l.length = n →
    List.zipWith (· + ·) l (List.replicate n (0 : ℚ)) = l
  | [], _, _ => by simp
  | a :: t, n, h => by
    cases n with
    | zero => simp at h
    | succ m =>
      simp only [List.replicate_succ, List.zipWith_cons_cons, add_zero]
      rw [zipWith_add_replicate_zero t m (by simpa using h)]

/-! ### `Series.__setitem__` via `List.set` -/

theorem sum_set : ∀ (l : List ℚ) (i : ℕ) (x : ℚ), i < l.length →
    (l.set i x).sum = l.sum - l.getD i 0 + x
  | [], i, _, h => by simp at h
  | a :: t, 0, x, _ => by
    simp only [List.set_cons_zero, List.sum_cons, List.getD_cons_zero]
    ring
  | a :: t, i + 1, x, h => by
    simp only [List.set_cons_succ, List.sum_cons, List.getD_cons_succ]
    rw [sum_set t i x (by simpa using h)]
    ring

theorem getD_set_self : ∀ (l : List ℚ) (i : ℕ) (x : ℚ), i < l.length →
    (l.set i x).getD i 0 = x
  | [], i, _, h => by simp at h
  | a :: t, 0, x, _ => by simp
  | a :: t, i + 1, x, h => by
    simp only [List.set_cons_succ, List.getD_cons_succ]
    exact getD_set_self t i x (by simpa using h)

theorem getD_set_other : ∀ (l : List ℚ) (i j : ℕ) (x : ℚ), i ≠ j →
    (l.set i x).getD j 0 = l.getD j 0
  | [], _, _, _, _ => by simp
  | a :: t, 0, 0, x, hne => absurd rfl hne
  | a :: t, 0, j + 1, x, _ => by simp
  | a :: t, i + 1, 0, x, _ => by simp
  | a :: t, i + 1, j + 1, x, hne => by
    simp only [List.set_cons_succ, List.getD_cons_succ]
    exact getD_set_other t i j x (fun h => hne (by rw [h]))

theorem getD_replicate_zero (n i : ℕ) : (List.replicate n (0 : ℚ)).getD i 0 = 0 := by
  rw [List.getD_eq_getElem?_getD, List.getElem?_replicate]
  split <;> rfl

theorem set_replicate_zero : ∀ (n t : ℕ),
    (List.replicate n (0 : ℚ)).set t 0 = List.replicate n 0
  | 0, _ => rfl
  | n + 1, 0 => by simp [List.replicate_succ]
  | n + 1, t + 1 => by
    simp only [List.replicate_succ, List.set_cons_succ]
    rw [set_replicate_zero n t]

/-! ### The redistribution loop -/

theorem length_foldl_bump : ∀ (ts : List ℕ) (x : ℚ) (l : List ℚ),
    (ts.foldl (bump x) l).length = l.length
  | [], _, _ => rfl
  | t :: ts, x, l => by
    rw [List.foldl_cons, length_foldl_bump ts x _]
    simp [bump]

theorem sum_foldl_bump : ∀ (ts : List ℕ) (x : ℚ) (l : List ℚ),
    (∀ t ∈ ts, t < l.length) →
    (ts.foldl (bump x) l).sum = l.sum + ts.length * x
  | [], _, _, _ => by simp
  | t :: ts, x, l, hb => by
    have ht : t < l.length := hb t (List.mem_cons_self t ts)
    rw [List.foldl_cons,
      sum_foldl_bump ts x _ (fun u hu => by
        rw [bump, List.length_set]
        exact hb u (List.mem_cons_of_mem t hu))]
    rw [bump, sum_set l t _ ht]
    simp only [List.length_cons]
    push_cast
    ring

theorem getD_foldl_bump : ∀ (ts : List ℕ) (x : ℚ) (l : List ℚ) (j : ℕ),
    ts.Nodup → (∀ t ∈ ts, t < l.length) → j < l.length →
    (ts.foldl (bump x) l).getD j 0 = l.getD j 0 + (if j ∈ ts then x else 0)
  | [], _, _, _, _, _, _ => by simp
  | t :: ts, x, l, j, hnd, hb, hj => by
    have ht : t < l.length := hb t (List.mem_cons_self t ts)
    have hlen : (bump x l t).length = l.length := by simp [bump]
    rw [List.foldl_cons,
      getD_foldl_bump ts x _ j hnd.of_cons
        (fun u hu => by rw [hlen]; exact hb u (List.mem_cons_of_mem t hu))
        (by rw [hlen]; exact hj)]
    by_cases hjt : j = t
    · subst hjt
      have hnotmem : j ∉ ts := (List.nodup_cons.mp hnd).1
      rw [if_neg hnotmem, if_pos (List.mem_cons_self j ts), bump,
        getD_set_self l j _ hj]
      ring
    · rw [bump, getD_set_other l t j _ (fun h => hjt h.symm)]
      by_cases hmem : j ∈ ts
      · rw [if_pos hmem, if_pos (List.mem_cons_of_mem t hmem)]
      · rw [if_neg hmem, if_neg (by simp [List.mem_cons, hjt, hmem])]

theorem foldl_bump_zero : ∀ ts : List ℕ,
    ts.foldl (bump 0) (List.replicate 24 (0 : ℚ)) = List.replicate 24 0
  | [] => rfl
  | t :: ts => by
    rw [List.foldl_cons]
    have hstep : bump 0 (List.replicate 24 (0 : ℚ)) t = List.replicate 24 0 := by
      rw [bump, getD_replicate_zero, add_zero, set_replicate_zero]
    rw [hstep, foldl_bump_zero ts]

/-! ### The baseline profile -/

theorem HOUSEHOLD_PROFILE_RAW_length : HOUSEHOLD_PROFILE_RAW.length = 24 := rfl

theorem HOUSEHOLD_PROFILE_RAW_sum : HOUSEHOLD_PROFILE_RAW.sum = 651 / 50 := by
  norm_num [HOUSEHOLD_PROFILE_RAW]

theorem HOUSEHOLD_PROFILE_RAW_sum_ne : HOUSEHOLD_PROFILE_RAW.sum ≠ 0 := by
  rw [HOUSEHOLD_PROFILE_RAW_sum]
  norm_num

theorem make_household_profile_length (d : ℚ) :
    (make_household_profile d).length = 24 := by
  simp only [make_household_profile, List.length_map]
  exact HOUSEHOLD_PROFILE_RAW_length

theorem make_household_profile_sum (d : ℚ) : (make_household_profile d).sum = d := by
  simp only [make_household_profile]
  rw [sum_map_mul]
  exact mul_div_cancel₀ d HOUSEHOLD_PROFILE_RAW_sum_ne

theorem make_household_profile_getD (d : ℚ) (h : ℕ) (hh : h < 24) :
    (make_household_profile d).getD h 0
      = HOUSEHOLD_PROFILE_RAW.getD h 0 * (d / HOUSEHOLD_PROFILE_RAW.sum) := by
  simp only [make_household_profile]
  exact getD_map_mul _ _ h (by rw [HOUSEHOLD_PROFILE_RAW_length]; exact hh)

/-! ### Target-hour selection -/

theorem sort_values_asc_perm (s : List ℚ) : (sort_values_asc s).Perm s.enum :=
  List.perm_insertionSort leSnd s.enum

theorem sort_values_desc_perm (s : List ℚ) : (sort_values_desc s).Perm s.enum :=
  (List.reverse_perm _).trans (sort_values_asc_perm s)

/-- Taking the first `k` positions of any permutation of `s.enum` yields
in-range, pairwise-distinct positions, `min k s.length` many. -/
theorem take_map_fst_props (s : List ℚ) (k : ℕ) (l : List (ℕ × ℚ))
    (hp : l.Perm s.enum) :
    (∀ t ∈ (l.take k).map Prod.fst, t < s.length) ∧
    ((l.take k).map Prod.fst).Nodup ∧
    ((l.take k).map Prod.fst).length = min k s.length := by
  have hfst : (l.map Prod.fst).Perm (List.range s.length) := by
    have hm := hp.map Prod.fst
    rwa [List.enum_map_fst] at hm
  have hnd : (l.map Prod.fst).Nodup := hfst.nodup_iff.mpr (List.nodup_range s.length)
  have hsub : List.Sublist ((l.take k).map Prod.fst) (l.map Prod.fst) :=
    (List.take_sublist k l).map Prod.fst
  refine ⟨?_, hnd.sublist hsub, ?_⟩
  · intro t ht
    have hmem : t ∈ List.range s.length := hfst.mem_iff.mp (hsub.subset ht)
    simpa using hmem
  · rw [List.length_map, List.length_take, hp.length_eq, List.enum_length]

theorem target_hours_low_def (ci rshare : List ℚ) (k : ℕ) :
    target_hours "low_intensity" ci rshare k
      = ((sort_values_asc ci).take k).map Prod.fst := by
  simp [target_hours]

theorem target_hours_max_def (ci rshare : List ℚ) (k : ℕ) :
    target_hours "max_renewable" ci rshare k
      = ((sort_values_desc rshare).take k).map Prod.fst := by
  simp [target_hours]

theorem target_hours_low_props (ci rshare : List ℚ) (k : ℕ) :
    (∀ t ∈ target_hours "low_intensity" ci rshare k, t < ci.length) ∧
    (target_hours "low_intensity" ci rshare k).Nodup ∧
    (target_hours "low_intensity" ci rshare k).length = min k ci.length := by
  rw [target_hours_low_def]
  exact take_map_fst_props ci k _ (sort_values_asc_perm ci)

theorem target_hours_max_props (ci rshare : List ℚ) (k : ℕ) :
    (∀ t ∈ target_hours "max_renewable" ci rshare k, t < rshare.length) ∧
    (target_hours "max_renewable" ci rshare k).Nodup ∧
    (target_hours "max_renewable" ci rshare k).length = min k rshare.length := by
  rw [target_hours_max_def]
  exact take_map_fst_props rshare k _ (sort_values_desc_perm rshare)

/-! ### Field views of the scenario engine -/

theorem scenario_core_baseline (ci : List ℚ) (d fs : ℚ) (strat : String)
    (rsh : List ℚ) (k : ℕ) :
    (scenario_core ci d fs strat rsh k).baseline_load = make_household_profile d := rfl

theorem scenario_core_shifted (ci : List ℚ) (d fs : ℚ) (strat : String)
    (rsh : List ℚ) (k : ℕ) :
    (scenario_core ci d fs strat rsh k).shifted_load =
      List.zipWith (· + ·)
        ((make_household_profile d).map (fun x => x * (1 - fs)))
        ((target_hours strat ci rsh k).foldl
          (bump (((make_household_profile d).map (fun x => x * fs)).sum /
            ((target_hours strat ci rsh k).length : ℚ)))
          (List.replicate 24 (0 : ℚ))) := rfl

theorem run_shift_scenario_ok (ci_series : List ℚ) (d fs : ℚ) (strategy : String)
    (renewable_share : Option (List ℚ)) (k : ℕ)
    (hci : ci_series.length = 24)
    (hval : strategy = "low_intensity" ∨
      (strategy = "max_renewable" ∧ renewable_share ≠ none)) :
    run_shift_scenario ci_series d fs strategy renewable_share k
      = .ok (scenario_core ci_series d fs strategy (renewable_share.getD []) k) := by
  rcases hval with h | ⟨h, hrs⟩ <;> subst h
  · simp only [run_shift_scenario]
    rw [if_neg (by simp [hci]), if_neg (by simp), if_neg (by simp)]
  · simp only [run_shift_scenario]
    rw [if_neg (by simp [hci]), if_neg (by simp [hrs]), if_neg (by simp)]

/-- Energy conservation of the core computation: as soon as the selected
target set is in range and nonempty, the shifted load sums to the baseline
load. -/
theorem scenario_core_conservation (ci : List ℚ) (d fs : ℚ) (strat : String)
    (rsh : List ℚ) (k : ℕ)
    (hb : ∀ t ∈ target_hours strat ci rsh k, t < 24)
    (hne : (target_hours strat ci rsh k).length ≠ 0) :
    (scenario_core ci d fs strat rsh k).shifted_load.sum
      = (scenario_core ci d fs strat rsh k).baseline_load.sum := by
  rw [scenario_core_shifted, scenario_core_baseline]
  have hBlen : (make_household_profile d).length = 24 := make_household_profile_length d
  have hnfl : ((make_household_profile d).map (fun x => x * (1 - fs))).length = 24 := by
    rw [List.length_map, hBlen]
  have hfxl : ((target_hours strat ci rsh k).foldl
      (bump (((make_household_profile d).map (fun x => x * fs)).sum /
        ((target_hours strat ci rsh k).length : ℚ)))
      (List.replicate 24 (0 : ℚ))).length = 24 := by
    rw [length_foldl_bump, List.length_replicate]
  rw [sum_zipWith_add _ _ (by rw [hnfl, hfxl]),
    sum_foldl_bump _ _ _ (by rw [List.length_replicate]; exact hb)]
  have hrep : (List.replicate 24 (0 : ℚ)).sum = 0 := by simp
  rw [hrep, sum_map_mul, sum_map_mul]
  have hTne : ((target_hours strat ci rsh k).length : ℚ) ≠ 0 := Nat.cast_ne_zero.mpr hne
  rw [mul_comm (((target_hours strat ci rsh k).length : ℚ)) _,
    div_mul_cancel₀ _ hTne]
  ring

/-- Pointwise description of the shifted load: `nonFlexLoad` everywhere,
plus `totalFlexEnergy / |targets|` at each selected hour. -/
theorem scenario_core_pointwise (ci : List ℚ) (d fs : ℚ) (strat : String)
    (rsh : List ℚ) (k : ℕ) (h : ℕ) (hh : h < 24)
    (hb : ∀ t ∈ target_hours strat ci rsh k, t < 24)
    (hnd : (target_hours strat ci rsh k).Nodup) :
    (scenario_core ci d fs strat rsh k).shifted_load.getD h 0
      = (make_household_profile d).getD h 0 * (1 - fs)
        + (if h ∈ target_hours strat ci rsh k then
            ((make_household_profile d).map (fun x => x * fs)).sum /
              ((target_hours strat ci rsh k).length : ℚ)
          else 0) := by
  rw [scenario_core_shifted,
    getD_zipWith_add _ _ h
      (by rw [List.length_map, make_household_profile_length]; exact hh)
      (by rw [length_foldl_bump, List.length_replicate]; exact hh),
    getD_map_mul _ _ h (by rw [make_household_profile_length]; exact hh),
    getD_foldl_bump _ _ _ h hnd (by rw [List.length_replicate]; exact hb)
      (by rw [List.length_replicate]; exact hh),
    getD_replicate_zero, zero_add]

/-- The LOW_INTENSITY branch never reads the renewable-share argument. -/
theorem scenario_core_low_rshare (ci : List ℚ) (d fs : ℚ) (r₁ r₂ : List ℚ) (k : ℕ) :
    scenario_core ci d fs "low_intensity" r₁ k
      = scenario_core ci d fs "low_intensity" r₂ k := by
  simp only [scenario_core, target_hours_low_def]

/-! ### Descending sort vs the spec's stable descending sort -/

/-- A weakly descending pairwise order is strictly descending once the
values are pairwise distinct. -/
theorem pairwise_strict_of_geSnd_nodup (l : List (ℕ × ℚ))
    (hs : l.Pairwise geSnd) (hnd : (l.map Prod.snd).Nodup) :
    l.Pairwise (fun a b : ℕ × ℚ => b.2 < a.2) := by
  have hne : l.Pairwise (fun a b : ℕ × ℚ => a.2 ≠ b.2) := List.pairwise_map.mp hnd
  exact (hs.and hne).imp (fun hx => lt_of_le_of_ne hx.1 hx.2.symm)

/-- With pairwise-distinct share values, reversing the ascending sort (what
pandas does for `ascending=False`) coincides with the spec's stable
descending sort. -/
theorem sort_values_desc_eq_of_nodup (rshare : List ℚ) (hnd : rshare.Nodup) :
    sort_values_desc rshare = List.insertionSort geSnd rshare.enum := by
  have pasc : (sort_values_asc rshare).Perm rshare.enum := sort_values_asc_perm rshare
  have pdesc : (List.insertionSort geSnd rshare.enum).Perm rshare.enum :=
    List.perm_insertionSort geSnd rshare.enum
  have prr : (sort_values_desc rshare).Perm (List.insertionSort geSnd rshare.enum) :=
    (sort_values_desc_perm rshare).trans pdesc.symm
  have hs₁ : (sort_values_desc rshare).Pairwise geSnd :=
    List.pairwise_reverse.mpr (List.sorted_insertionSort leSnd rshare.enum)
  have hs₂ : (List.insertionSort geSnd rshare.enum).Pairwise geSnd :=
    List.sorted_insertionSort geSnd rshare.enum
  have hnd₁ : ((sort_values_desc rshare).map Prod.snd).Nodup := by
    have hpm : ((sort_values_desc rshare).map Prod.snd).Perm rshare := by
      have := (sort_values_desc_perm rshare).map Prod.snd
      rwa [List.enum_map_snd] at this
    exact hpm.nodup_iff.mpr hnd
  have hnd₂ : ((List.insertionSort geSnd rshare.enum).map Prod.snd).Nodup := by
    have hpm : ((List.insertionSort geSnd rshare.enum).map Prod.snd).Perm rshare := by
      have := pdesc.map Prod.snd
      rwa [List.enum_map_snd] at this
    exact hpm.nodup_iff.mpr hnd
  haveI : IsAntisymm (ℕ × ℚ) (fun a b : ℕ × ℚ => b.2 < a.2) :=
    ⟨fun _ _ h₁ h₂ => absurd h₁ (lt_asymm h₂)⟩
  exact List.eq_of_perm_of_sorted prr
    (pairwise_strict_of_geSnd_nodup _ hs₁ hnd₁)
    (pairwise_strict_of_geSnd_nodup _ hs₂ hnd₂)

/-! ### Sort-invariant descriptions of the selection -/

/-- A weakly ascending pairwise order is strictly ascending once the
values are pairwise distinct. -/
theorem pairwise_strict_of_leSnd_nodup (l : List (ℕ × ℚ))
    (hs : l.Pairwise leSnd) (hnd : (l.map Prod.snd).Nodup) :
    l.Pairwise (fun a b : ℕ × ℚ => a.2 < b.2) := by
  have hne : l.Pairwise (fun a b : ℕ × ℚ => a.2 ≠ b.2) := List.pairwise_map.mp hnd
  exact (hs.and hne).imp (fun hx => lt_of_le_of_ne hx.1 hx.2)

/-- A pair of `s.enum` carries the value `s` holds at its position. -/
theorem getD_fst_of_mem_enum (s : List ℚ) (p : ℕ × ℚ) (hp : p ∈ s.enum) :
    s.getD p.1 0 = p.2 := by
  rw [List.getD_eq_getElem?_getD, List.mem_enum_iff_getElem?.mp hp]
  rfl

/-- The position of a pair of `s.enum` is in range. -/
theorem fst_lt_of_mem_enum (s : List ℚ) (p : ℕ × ℚ) (hp : p ∈ s.enum) :
    p.1 < s.length := by
  have hm : p.1 ∈ List.range s.length := by
    rw [← List.enum_map_fst]
    exact List.mem_map.mpr ⟨p, hp, rfl⟩
  simpa using hm

/-- In a strictly key-sorted pair list, the number of entries whose key is
strictly below the key at position `i` is exactly `i` (stated for an
arbitrary Boolean strict order `f`). -/
theorem countP_eq_index_of_strict (f : ℚ → ℚ → Bool)
    (hasym : ∀ a b, f a b = true → f b a = false) :
    ∀ (L : List (ℕ × ℚ)), L.Pairwise (fun a b => f a.2 b.2 = true) →
      ∀ (i : ℕ) (hi : i < L.length),
        L.countP (fun p => f p.2 (L.get ⟨i, hi⟩).2) = i
  | [], _, i, hi => absurd hi (by simp)
  | a :: t, hs, 0, hi => by
    have hhead : ∀ b ∈ t, f a.2 b.2 = true := (List.pairwise_cons.mp hs).1
    have hself : f a.2 a.2 = false := by
      cases hfa : f a.2 a.2 with
      | false => rfl
      | true => exact absurd (hasym _ _ hfa) (by rw [hfa]; simp)
    have hzero : t.countP (fun p => f p.2 a.2) = 0 := by
      rw [List.countP_eq_zero]
      intro p hp
      rw [hasym _ _ (hhead p hp)]
      simp
    show (a :: t).countP (fun p => f p.2 a.2) = 0
    rw [List.countP_cons, hzero, hself]
    simp
  | a :: t, hs, i + 1, hi => by
    have hpc := List.pairwise_cons.mp hs
    have hit : i < t.length := by simpa using hi
    have hih := countP_eq_index_of_strict f hasym t hpc.2 i hit
    show (a :: t).countP (fun p => f p.2 (t.get ⟨i, hit⟩).2) = i + 1
    rw [List.countP_cons, hih, hpc.1 _ (List.get_mem t i hit)]
    simp

/-- Membership in the first `k` entries of a strictly key-sorted
permutation of `s.enum`, characterised by how many keys are strictly
below (in the order `f`) the key at the queried position — a description
independent of the sorting algorithm. -/
theorem mem_targets_iff_rank_lt (f : ℚ → ℚ → Bool)
    (hasym : ∀ a b, f a b = true → f b a = false)
    (s : List ℚ) (L : List (ℕ × ℚ)) (hperm : L.Perm s.enum)
    (hs : L.Pairwise (fun a b => f a.2 b.2 = true)) (k h : ℕ) :
    h ∈ (L.take k).map Prod.fst ↔
      h < s.length ∧ s.enum.countP (fun p => f p.2 (s.getD h 0)) < k := by
  constructor
  · intro hmem
    obtain ⟨p, hp_take, hp1⟩ := List.mem_map.mp hmem
    obtain ⟨⟨i, hi⟩, hget⟩ := List.mem_iff_get.mp hp_take
    have hi' : i < min k L.length := by simpa [List.length_take] using hi
    have hik : i < k := lt_of_lt_of_le hi' (min_le_left _ _)
    have hiL : i < L.length := lt_of_lt_of_le hi' (min_le_right _ _)
    have hgetL : L.get ⟨i, hiL⟩ = p := by
      rw [← hget]
      simp [List.get_eq_getElem, List.getElem_take]
    have hpL : p ∈ L := (List.take_sublist k L).subset hp_take
    have hpe : p ∈ s.enum := hperm.subset hpL
    have hp2 : s.getD p.1 0 = p.2 := getD_fst_of_mem_enum s p hpe
    have hcount := countP_eq_index_of_strict f hasym L hs i hiL
    rw [hgetL] at hcount
    subst hp1
    refine ⟨fst_lt_of_mem_enum s p hpe, ?_⟩
    rw [hp2, ← hperm.countP_eq, hcount]
    exact hik
  · rintro ⟨hh, hrank⟩
    have hv : s[h]? = some (s.getD h 0) := by
      rw [List.getElem?_eq_getElem hh, List.getD_eq_getElem?_getD,
        List.getElem?_eq_getElem hh]
      rfl
    have hpe : (h, s.getD h 0) ∈ s.enum := List.mem_enum_iff_getElem?.mpr hv
    obtain ⟨⟨i, hiL⟩, hget⟩ := List.mem_iff_get.mp (hperm.mem_iff.mpr hpe)
    have hsnd : (L.get ⟨i, hiL⟩).2 = s.getD h 0 := by rw [hget]
    have hcount := countP_eq_index_of_strict f hasym L hs i hiL
    rw [hsnd] at hcount
    have hik : i < k := by
      rw [← hcount, hperm.countP_eq]
      exact hrank
    have hi' : i < (L.take k).length := by
      rw [List.length_take]
      omega
    refine List.mem_map.mpr ⟨L.get ⟨i, hiL⟩, ?_, by rw [hget]⟩
    have hgt : (L.take k).get ⟨i, hi'⟩ = L.get ⟨i, hiL⟩ := by
      simp [List.get_eq_getElem, List.getElem_take]
    rw [← hgt]
    exact List.get_mem _ _ _

/-- Counting the in-range positions whose value is strictly below `v`,
as a count over `s.enum`. -/
theorem length_filter_range_lt (s : List ℚ) (v : ℚ) :
    ((List.range s.length).filter (fun j => decide (s.getD j 0 < v))).length
      = s.enum.countP (fun p => decide (p.2 < v)) := by
  rw [← List.countP_eq_length_filter, ← List.enum_map_fst s, List.countP_map]
  refine List.countP_congr ?_
  intro p hp
  simp only [Function.comp_apply]
  rw [getD_fst_of_mem_enum s p hp]

/-- Counting the in-range positions whose value is strictly above `v`,
as a count over `s.enum`. -/
theorem length_filter_range_gt (s : List ℚ) (v : ℚ) :
    ((List.range s.length).filter (fun j => decide (v < s.getD j 0))).length
      = s.enum.countP (fun p => decide (v < p.2)) := by
  rw [← List.countP_eq_length_filter, ← List.enum_map_fst s, List.countP_map]
  refine List.countP_congr ?_
  intro p hp
  simp only [Function.comp_apply]
  rw [getD_fst_of_mem_enum s p hp]

/-- The key sequence of the ascending pair sort is the ascending sort of
the plain value list (true for any correct sort: weakly sorted
permutations of the same list are equal). -/
theorem map_snd_sort_values_asc (s : List ℚ) :
    (sort_values_asc s).map Prod.snd
      = List.insertionSort (fun a b : ℚ => a ≤ b) s := by
  haveI : IsTotal ℚ (fun a b : ℚ => a ≤ b) := ⟨le_total⟩
  haveI : IsTrans ℚ (fun a b : ℚ => a ≤ b) := ⟨fun _ _ _ hab hbc => le_trans hab hbc⟩
  haveI : IsAntisymm ℚ (fun a b : ℚ => a ≤ b) := ⟨fun _ _ hab hba => le_antisymm hab hba⟩
  have hperm : ((sort_values_asc s).map Prod.snd).Perm
      (List.insertionSort (fun a b : ℚ => a ≤ b) s) := by
    have h1 := (sort_values_asc_perm s).map Prod.snd
    rw [List.enum_map_snd] at h1
    exact h1.trans (List.perm_insertionSort _ s).symm
  have hs1 : ((sort_values_asc s).map Prod.snd).Pairwise (fun a b : ℚ => a ≤ b) :=
    List.pairwise_map.mpr (List.sorted_insertionSort leSnd s.enum)
  exact List.eq_of_perm_of_sorted hperm hs1 (List.sorted_insertionSort _ s)

/-- Reversing the ascending sort of the values gives the descending sort
of the values. -/
theorem reverse_sort_asc_eq_sort_desc (s : List ℚ) :
    (List.insertionSort (fun a b : ℚ => a ≤ b) s).reverse
      = List.insertionSort (fun a b : ℚ => b ≤ a) s := by
  haveI : IsTotal ℚ (fun a b : ℚ => b ≤ a) := ⟨fun a b => le_total b a⟩
  haveI : IsTrans ℚ (fun a b : ℚ => b ≤ a) := ⟨fun _ _ _ hab hbc => le_trans hbc hab⟩
  haveI : IsAntisymm ℚ (fun a b : ℚ => b ≤ a) :=
    ⟨fun _ _ hab hba => le_antisymm hba hab⟩
  haveI : IsTotal ℚ (fun a b : ℚ => a ≤ b) := ⟨le_total⟩
  haveI : IsTrans ℚ (fun a b : ℚ => a ≤ b) := ⟨fun _ _ _ hab hbc => le_trans hab hbc⟩
  have hperm : ((List.insertionSort (fun a b : ℚ => a ≤ b) s).reverse).Perm
      (List.insertionSort (fun a b : ℚ => b ≤ a) s) :=
    ((List.reverse_perm _).trans (List.perm_insertionSort _ s)).trans
      (List.perm_insertionSort _ s).symm
  have hs1 : ((List.insertionSort (fun a b : ℚ => a ≤ b) s).reverse).Pairwise
      (fun a b : ℚ => b ≤ a) :=
    List.pairwise_reverse.mpr (List.sorted_insertionSort _ s)
  exact List.eq_of_perm_of_sorted hperm hs1 (List.sorted_insertionSort _ s)

/-- The carbon-intensity values at the LOW_INTENSITY target hours, in
selection order, are exactly the `k` smallest values in ascending order —
regardless of how the sort breaks ties. -/
theorem targets_map_value_low (ci rshare : List ℚ) (k : ℕ) :
    (target_hours "low_intensity" ci rshare k).map (fun h => ci.getD h 0)
      = (List.insertionSort (fun a b : ℚ => a ≤ b) ci).take k := by
  rw [target_hours_low_def, List.map_map]
  have hcg : ∀ p ∈ (sort_values_asc ci).take k,
      ((fun h => ci.getD h 0) ∘ Prod.fst) p = Prod.snd p := by
    intro p hp
    simp only [Function.comp_apply]
    exact getD_fst_of_mem_enum ci p
      ((sort_values_asc_perm ci).subset ((List.take_sublist k _).subset hp))
  rw [List.map_congr_left hcg, List.map_take, map_snd_sort_values_asc]

/-- The renewable-share values at the MAX_RENEWABLE target hours, in
selection order, are exactly the `k` largest values in descending order —
regardless of how the sort breaks ties. -/
theorem targets_map_value_max (ci rshare : List ℚ) (k : ℕ) :
    (target_hours "max_renewable" ci rshare k).map (fun h => rshare.getD h 0)
      = (List.insertionSort (fun a b : ℚ => b ≤ a) rshare).take k := by
  rw [target_hours_max_def, List.map_map]
  have hcg : ∀ p ∈ (sort_values_desc rshare).take k,
      ((fun h => rshare.getD h 0) ∘ Prod.fst) p = Prod.snd p := by
    intro p hp
    simp only [Function.comp_apply]
    exact getD_fst_of_mem_enum rshare p
      ((sort_values_desc_perm rshare).subset ((List.take_sublist k _).subset hp))
  rw [List.map_congr_left hcg, List.map_take]
  simp only [sort_values_desc]
  rw [List.map_reverse, map_snd_sort_values_asc, reverse_sort_asc_eq_sort_desc]

theorem zipWith_mul_replicate_zero : ∀ (l : List ℚ) (n : ℕ), l.length = n →
    List.zipWith (· * ·) l (List.replicate n (0 : ℚ)) = List.replicate n 0
  | [], n, h => by
    subst h
    simp
  | a :: t, n, h => by
    cases n with
    | zero => simp at h
    | succ m =>
      simp only [List.replicate_succ, List.zipWith_cons_cons, mul_zero]
      rw [zipWith_mul_replicate_zero t m (by simpa using h)]

theorem scenario_core_total_baseline (ci : List ℚ) (d fs : ℚ) (strat : String)
    (rsh : List ℚ) (k : ℕ) :
    (scenario_core ci d fs strat rsh k).total_baseline_emissions
      = (List.zipWith (· * ·) (make_household_profile d) ci).sum := rfl

theorem scenario_core_relative (ci : List ℚ) (d fs : ℚ) (strat : String)
    (rsh : List ℚ) (k : ℕ) :
    (scenario_core ci d fs strat rsh k).relative_reduction
      = if (scenario_core ci d fs strat rsh k).total_baseline_emissions = 0 then none
        else some (((scenario_core ci d fs strat rsh k).total_baseline_emissions
            - (scenario_core ci d fs strat rsh k).total_shifted_emissions)
          / (scenario_core ci d fs strat rsh k).total_baseline_emissions) := rfl

/-! ### Claims -/

/-- C1: for every 24-value carbon-intensity series, dailyEnergy > 0,
flexibleShare in [0,1], recognised strategy (with an aligned
renewable-share series when MAX_RENEWABLE) and targetHourCount in [1,24],
`run_shift_scenario` returns a result whose shifted-load series sums to
exactly the baseline-load series' sum (energy conservation; exact over
ℚ, hence within any floating-point tolerance). -/
theorem C1_energy_conservation (ci_series : List ℚ) (daily_kwh flexible_share : ℚ)
    (strategy : String) (renewable_share : Option (List ℚ)) (n_target_hours : ℕ)
    (hci : ci_series.length = 24)
    (hd : 0 < daily_kwh)
    (hf0 : 0 ≤ flexible_share) (hf1 : flexible_share ≤ 1)
    (hstrat : strategy = "low_intensity" ∨
      (strategy = "max_renewable" ∧
        ∃ rs, renewable_share = some rs ∧ rs.length = 24))
    (hk1 : 1 ≤ n_target_hours) (hk2 : n_target_hours ≤ 24) :
    ∃ res, run_shift_scenario ci_series daily_kwh flexible_share strategy
        renewable_share n_target_hours = .ok res ∧
      res.shifted_load.sum = res.baseline_load.sum := by
  rcases hstrat with hlow | ⟨hmax, rs, hrs, hrslen⟩
  · subst hlow
    refine ⟨_, run_shift_scenario_ok _ _ _ _ _ _ hci (Or.inl rfl), ?_⟩
    have hp := target_hours_low_props ci_series (renewable_share.getD []) n_target_hours
    refine scenario_core_conservation _ _ _ _ _ _ (fun t ht => ?_) ?_
    · have hlt := hp.1 t ht
      rwa [hci] at hlt
    · rw [hp.2.2, hci]
      omega
  · subst hmax
    subst hrs
    refine ⟨scenario_core ci_series daily_kwh flexible_share "max_renewable" rs
        n_target_hours,
      run_shift_scenario_ok _ _ _ _ _ _ hci (Or.inr ⟨rfl, by simp⟩), ?_⟩
    have hp := target_hours_max_props ci_series rs n_target_hours
    refine scenario_core_conservation _ _ _ _ _ _ (fun t ht => ?_) ?_
    · have hlt := hp.1 t ht
      rwa [hrslen] at hlt
    · rw [hp.2.2, hrslen]
      omega

/-- Witness for C1 at a concrete valid input. -/
theorem C1_witness :
    ∃ res, run_shift_scenario (List.replicate 24 (100 : ℚ)) 14 (3/10)
        "low_intensity" none 4 = .ok res ∧
      res.shifted_load.sum = res.baseline_load.sum :=
  C1_energy_conservation (List.replicate 24 (100 : ℚ)) 14 (3/10) "low_intensity"
    none 4 (by simp) (by norm_num) (by norm_num) (by norm_num) (Or.inl rfl)
    (by norm_num) (by norm_num)

/-- C2 fails on the MAX_RENEWABLE side: with all renewable shares equal,
the code picks hour 23 as the single target, whereas the claimed
largest-value selection with ties broken by original timestamp order picks
hour 0.  The modelled outcome agrees with the real pipeline here: numpy's
introsort partition over the 24 tied keys leaves the last index (23) in
place at the end of the ascending argsort, and pandas' `indexer[::-1]`
reversal for `ascending=False` then puts hour 23 first. -/
theorem C2_counterexample :
    target_hours "max_renewable" (List.replicate 24 (0 : ℚ))
        (List.replicate 24 (1 : ℚ)) 1 = [23] ∧
    spec_targets_max (List.replicate 24 (1 : ℚ)) 1 = [0] ∧
    target_hours "max_renewable" (List.replicate 24 (0 : ℚ))
        (List.replicate 24 (1 : ℚ)) 1
      ≠ spec_targets_max (List.replicate 24 (1 : ℚ)) 1 := by
  decide

/-- C2 (amended): the code guarantees the selection only up to tie order.
For every input, the carbon-intensity values at the LOW_INTENSITY target
hours are exactly the `targetHourCount` smallest values in ascending
order, and the renewable-share values at the MAX_RENEWABLE target hours
are exactly the `targetHourCount` largest values in descending order.
When the key series has pairwise-distinct values this determines the
hours: an hour is selected iff fewer than `targetHourCount` hours have a
strictly smaller (LOW_INTENSITY) resp. strictly larger (MAX_RENEWABLE)
key value — the spec's selection.  With tied keys the tie-break order is
implementation-defined (numpy's unstable default argsort; additionally
pandas reverses the ascending permutation for descending sorts) and is
not original timestamp order. -/
theorem C2_amended_selection (ci_series rshare : List ℚ) (k : ℕ) :
    ((target_hours "low_intensity" ci_series rshare k).map
        (fun h => ci_series.getD h 0)
      = (List.insertionSort (fun a b : ℚ => a ≤ b) ci_series).take k) ∧
    ((target_hours "max_renewable" ci_series rshare k).map
        (fun h => rshare.getD h 0)
      = (List.insertionSort (fun a b : ℚ => b ≤ a) rshare).take k) ∧
    (ci_series.Nodup → ∀ h : ℕ,
      (h ∈ target_hours "low_intensity" ci_series rshare k ↔
        h < ci_series.length ∧
          ((List.range ci_series.length).filter
            (fun j => ci_series.getD j 0 < ci_series.getD h 0)).length < k)) ∧
    (rshare.Nodup → ∀ h : ℕ,
      (h ∈ target_hours "max_renewable" ci_series rshare k ↔
        h < rshare.length ∧
          ((List.range rshare.length).filter
            (fun j => rshare.getD h 0 < rshare.getD j 0)).length < k)) := by
  refine ⟨targets_map_value_low ci_series rshare k,
    targets_map_value_max ci_series rshare k, fun hnd h => ?_, fun hnd h => ?_⟩
  · have hsnd : ((sort_values_asc ci_series).map Prod.snd).Nodup := by
      have hp2 := (sort_values_asc_perm ci_series).map Prod.snd
      rw [List.enum_map_snd] at hp2
      exact hp2.nodup_iff.mpr hnd
    have hstrict := pairwise_strict_of_leSnd_nodup _
      (List.sorted_insertionSort leSnd ci_series.enum) hsnd
    have hsB : (sort_values_asc ci_series).Pairwise
        (fun a b : ℕ × ℚ => decide (a.2 < b.2) = true) :=
      hstrict.imp (fun hx => decide_eq_true hx)
    have hasym : ∀ a b : ℚ, decide (a < b) = true → decide (b < a) = false := by
      intro a b hab
      rw [decide_eq_true_eq] at hab
      rw [decide_eq_false_iff_not]
      exact lt_asymm hab
    have hiff := mem_targets_iff_rank_lt (fun a b : ℚ => decide (a < b)) hasym
      ci_series (sort_values_asc ci_series) (sort_values_asc_perm ci_series)
      hsB k h
    rw [target_hours_low_def,
      length_filter_range_lt ci_series (ci_series.getD h 0)]
    exact hiff
  · have hs₁ : (sort_values_desc rshare).Pairwise geSnd :=
      List.pairwise_reverse.mpr (List.sorted_insertionSort leSnd rshare.enum)
    have hsnd : ((sort_values_desc rshare).map Prod.snd).Nodup := by
      have hp2 := (sort_values_desc_perm rshare).map Prod.snd
      rw [List.enum_map_snd] at hp2
      exact hp2.nodup_iff.mpr hnd
    have hstrict := pairwise_strict_of_geSnd_nodup _ hs₁ hsnd
    have hsB : (sort_values_desc rshare).Pairwise
        (fun a b : ℕ × ℚ => decide (b.2 < a.2) = true) :=
      hstrict.imp (fun hx => decide_eq_true hx)
    have hasym : ∀ a b : ℚ, decide (b < a) = true → decide (a < b) = false := by
      intro a b hab
      rw [decide_eq_true_eq] at hab
      rw [decide_eq_false_iff_not]
      exact lt_asymm hab
    have hiff := mem_targets_iff_rank_lt (fun a b : ℚ => decide (b < a)) hasym
      rshare (sort_values_desc rshare) (sort_values_desc_perm rshare) hsB k h
    rw [target_hours_max_def,
      length_filter_range_gt rshare (rshare.getD h 0)]
    exact hiff

/-- Witness for the amended C2 at concrete tie-free inputs, discharging
both pairwise-distinct hypotheses. -/
theorem C2_witness :
    (∀ h : ℕ, (h ∈ target_hours "low_intensity" [(5 : ℚ), 3, 4] [] 2 ↔
      h < ([(5 : ℚ), 3, 4] : List ℚ).length ∧
        ((List.range ([(5 : ℚ), 3, 4] : List ℚ).length).filter
          (fun j => ([(5 : ℚ), 3, 4] : List ℚ).getD j 0
            < ([(5 : ℚ), 3, 4] : List ℚ).getD h 0)).length < 2)) ∧
    (∀ h : ℕ, (h ∈ target_hours "max_renewable" [] [(1 : ℚ), 3, 2] 2 ↔
      h < ([(1 : ℚ), 3, 2] : List ℚ).length ∧
        ((List.range ([(1 : ℚ), 3, 2] : List ℚ).length).filter
          (fun j => ([(1 : ℚ), 3, 2] : List ℚ).getD h 0
            < ([(1 : ℚ), 3, 2] : List ℚ).getD j 0)).length < 2)) :=
  ⟨(C2_amended_selection [(5 : ℚ), 3, 4] [] 2).2.2.1 (by decide),
   (C2_amended_selection [] [(1 : ℚ), 3, 2] 2).2.2.2 (by decide)⟩

/-- C3: on valid inputs the shifted load equals `nonFlexLoad` plus
`totalFlexEnergy / targetHourCount` at each of the exactly
`targetHourCount` target hours and `nonFlexLoad` everywhere else. -/
theorem C3_uniform_redistribution (ci_series : List ℚ) (daily_kwh flexible_share : ℚ)
    (strategy : String) (renewable_share : Option (List ℚ)) (n_target_hours : ℕ)
    (hci : ci_series.length = 24)
    (hstrat : strategy = "low_intensity" ∨
      (strategy = "max_renewable" ∧
        ∃ rs, renewable_share = some rs ∧ rs.length = 24))
    (hk1 : 1 ≤ n_target_hours) (hk2 : n_target_hours ≤ 24) :
    ∃ res, run_shift_scenario ci_series daily_kwh flexible_share strategy
        renewable_share n_target_hours = .ok res ∧
      (target_hours strategy ci_series (renewable_share.getD [])
        n_target_hours).length = n_target_hours ∧
      ∀ h, h < 24 → res.shifted_load.getD h 0
        = (make_household_profile daily_kwh).getD h 0 * (1 - flexible_share)
          + (if h ∈ target_hours strategy ci_series (renewable_share.getD [])
                n_target_hours then
              ((make_household_profile daily_kwh).map
                (fun x => x * flexible_share)).sum / (n_target_hours : ℚ)
            else 0) := by
  rcases hstrat with hlow | ⟨hmax, rs, hrs, hrslen⟩
  · subst hlow
    have hp := target_hours_low_props ci_series (renewable_share.getD []) n_target_hours
    have hlen : (target_hours "low_intensity" ci_series (renewable_share.getD [])
        n_target_hours).length = n_target_hours := by
      rw [hp.2.2, hci]
      omega
    refine ⟨_, run_shift_scenario_ok _ _ _ _ _ _ hci (Or.inl rfl), hlen,
      fun h hh => ?_⟩
    rw [scenario_core_pointwise _ _ _ _ _ _ h hh
        (fun t ht => by have hlt := hp.1 t ht; rwa [hci] at hlt) hp.2.1,
      hlen]
  · subst hmax
    subst hrs
    have hp := target_hours_max_props ci_series rs n_target_hours
    have hlen : (target_hours "max_renewable" ci_series rs n_target_hours).length
        = n_target_hours := by
      rw [hp.2.2, hrslen]
      omega
    refine ⟨scenario_core ci_series daily_kwh flexible_share "max_renewable" rs
        n_target_hours,
      run_shift_scenario_ok _ _ _ _ _ _ hci (Or.inr ⟨rfl, by simp⟩), hlen,
      fun h hh => ?_⟩
    rw [scenario_core_pointwise _ _ _ _ _ _ h hh
        (fun t ht => by have hlt := hp.1 t ht; rwa [hrslen] at hlt) hp.2.1,
      hlen]
    simp only [Option.getD_some]

/-- Witness for C3 at a concrete valid input. -/
theorem C3_witness :
    ∃ res, run_shift_scenario (List.replicate 24 (100 : ℚ)) 14 (3/10)
        "low_intensity" none 4 = .ok res ∧
      (target_hours "low_intensity" (List.replicate 24 (100 : ℚ))
        ((none : Option (List ℚ)).getD []) 4).length = 4 ∧
      ∀ h, h < 24 → res.shifted_load.getD h 0
        = (make_household_profile 14).getD h 0 * (1 - 3/10)
          + (if h ∈ target_hours "low_intensity" (List.replicate 24 (100 : ℚ))
                ((none : Option (List ℚ)).getD []) 4 then
              ((make_household_profile 14).map (fun x => x * (3/10))).sum / (4 : ℚ)
            else 0) :=
  C3_uniform_redistribution (List.replicate 24 (100 : ℚ)) 14 (3/10) "low_intensity"
    none 4 (by simp) (Or.inl rfl) (by norm_num) (by norm_num)

/-- C4: contrary to the claim, the engine has no zero-baseline guard: on an
all-zero carbon-intensity day it raises no error and returns a result whose
total baseline emissions are 0 and whose relative reduction is the value of
the unguarded division by zero (`none`, modelling the silently propagated
non-finite float). -/
theorem C4_degenerate_baseline_unguarded :
    ∃ res, run_shift_scenario (List.replicate 24 (0 : ℚ)) 14 (3/10) "low_intensity"
        none 4 = .ok res ∧
      res.total_baseline_emissions = 0 ∧
      res.relative_reduction = none := by
  have hz : (List.zipWith (· * ·) (make_household_profile 14)
      (List.replicate 24 (0 : ℚ))).sum = 0 := by
    rw [zipWith_mul_replicate_zero _ 24 (make_household_profile_length 14)]
    simp
  refine ⟨_, run_shift_scenario_ok _ _ _ _ _ _ (by simp) (Or.inl rfl), ?_, ?_⟩
  · rw [scenario_core_total_baseline]
    exact hz
  · rw [scenario_core_relative, scenario_core_total_baseline]
    rw [if_pos hz]

/-- C5: contrary to the claim, `compute_renewable_share` lets the NaN from
a `0/0` hour pass through the clip: on a day slice whose first hour has
RENEWABLE = 0 and GENERATION = 0 the output contains `nan` (the clip does
handle a finite over-unity ratio, hour 1, and ordinary hours). -/
theorem C5_nan_propagation :
    compute_renewable_share ((0 : ℚ) :: 120 :: List.replicate 22 (1 : ℚ))
        ((0 : ℚ) :: 100 :: List.replicate 22 (2 : ℚ))
      = FloatQ.nan :: FloatQ.num 1 :: List.replicate 22 (FloatQ.num (1/2)) := by
  with_unfolding_all decide

/-- C6: a carbon-intensity series whose length is not 24 makes
`run_shift_scenario` raise the invalid-series-length error instead of
returning a result. -/
theorem C6_wrong_length_error (ci_series : List ℚ) (daily_kwh flexible_share : ℚ)
    (strategy : String) (renewable_share : Option (List ℚ)) (n_target_hours : ℕ)
    (hci : ci_series.length ≠ 24) :
    run_shift_scenario ci_series daily_kwh flexible_share strategy renewable_share
        n_target_hours = .error (.invalidSeriesLength ci_series.length) := by
  simp only [run_shift_scenario]
  rw [if_pos hci]

/-- Witness for C6 on a 23-element series. -/
theorem C6_witness :
    run_shift_scenario (List.replicate 23 (100 : ℚ)) 14 (3/10) "low_intensity"
        none 4 = .error (.invalidSeriesLength 23) := by
  have h := C6_wrong_length_error (List.replicate 23 (100 : ℚ)) 14 (3/10)
    "low_intensity" none 4 (by simp)
  simpa using h

/-- C7: MAX_RENEWABLE without a renewable-share series raises the
missing-input error, while LOW_INTENSITY never consults the
renewable-share argument and never raises it. -/
theorem C7_missing_renewable_share (ci_series : List ℚ) (daily_kwh flexible_share : ℚ)
    (n_target_hours : ℕ) (hci : ci_series.length = 24) :
    run_shift_scenario ci_series daily_kwh flexible_share "max_renewable" none
        n_target_hours = .error .missingInput ∧
    ∀ renewable_share : Option (List ℚ),
      run_shift_scenario ci_series daily_kwh flexible_share "low_intensity"
          renewable_share n_target_hours
        = run_shift_scenario ci_series daily_kwh flexible_share "low_intensity"
            none n_target_hours ∧
      run_shift_scenario ci_series daily_kwh flexible_share "low_intensity"
          renewable_share n_target_hours ≠ .error .missingInput := by
  refine ⟨?_, fun renewable_share => ⟨?_, ?_⟩⟩
  · simp only [run_shift_scenario]
    rw [if_neg (by simp [hci]), if_pos (by simp)]
  · rw [run_shift_scenario_ok _ _ _ _ _ _ hci (Or.inl rfl),
      run_shift_scenario_ok _ _ _ _ _ _ hci (Or.inl rfl)]
    exact congrArg Except.ok (scenario_core_low_rshare _ _ _ _ _ _)
  · rw [run_shift_scenario_ok _ _ _ _ _ _ hci (Or.inl rfl)]
    simp

/-- Witness for C7 on a concrete 24-element series. -/
theorem C7_witness :
    run_shift_scenario (List.replicate 24 (100 : ℚ)) 14 (3/10) "max_renewable"
        none 4 = .error .missingInput :=
  (C7_missing_renewable_share (List.replicate 24 (100 : ℚ)) 14 (3/10) 4 (by simp)).1

/-- C8: the profile generator scales each raw weight by
`dailyEnergy / sum(rawWeights)` and its output sums exactly to
`dailyEnergy`. -/
theorem C8_profile_scaling (daily_kwh : ℚ) (hd : 0 < daily_kwh) :
    (∀ h, h < 24 → (make_household_profile daily_kwh).getD h 0
        = HOUSEHOLD_PROFILE_RAW.getD h 0 * daily_kwh / HOUSEHOLD_PROFILE_RAW.sum) ∧
    (make_household_profile daily_kwh).sum = daily_kwh := by
  refine ⟨fun h hh => ?_, make_household_profile_sum daily_kwh⟩
  rw [make_household_profile_getD daily_kwh h hh, mul_div_assoc]

/-- Witness for C8 at `dailyEnergy = 14`. -/
theorem C8_witness :
    (∀ h, h < 24 → (make_household_profile 14).getD h 0
        = HOUSEHOLD_PROFILE_RAW.getD h 0 * 14 / HOUSEHOLD_PROFILE_RAW.sum) ∧
    (make_household_profile 14).sum = 14 :=
  C8_profile_scaling 14 (by norm_num)

/-- C9: with `flexibleShare = 0` the engine returns a shifted-load series
equal, element for element, to the baseline-load series. -/
theorem C9_zero_flexible_share (ci_series : List ℚ) (daily_kwh : ℚ)
    (strategy : String) (renewable_share : Option (List ℚ)) (n_target_hours : ℕ)
    (hci : ci_series.length = 24)
    (hstrat : strategy = "low_intensity" ∨
      (strategy = "max_renewable" ∧ renewable_share ≠ none)) :
    ∃ res, run_shift_scenario ci_series daily_kwh 0 strategy renewable_share
        n_target_hours = .ok res ∧
      res.shifted_load = res.baseline_load := by
  refine ⟨_, run_shift_scenario_ok _ _ _ _ _ _ hci hstrat, ?_⟩
  rw [scenario_core_shifted, scenario_core_baseline]
  have hzero : ((make_household_profile daily_kwh).map (fun x => x * 0)).sum = 0 := by
    rw [sum_map_mul, mul_zero]
  rw [hzero, zero_div, foldl_bump_zero]
  have hone : (make_household_profile daily_kwh).map (fun x => x * (1 - 0))
      = make_household_profile daily_kwh := by
    simp
  rw [hone, zipWith_add_replicate_zero _ 24 (make_household_profile_length _)]

/-- Witness for C9 at a concrete input. -/
theorem C9_witness :
    ∃ res, run_shift_scenario (List.replicate 24 (250 : ℚ)) 20 0 "low_intensity"
        none 4 = .ok res ∧
      res.shifted_load = res.baseline_load :=
  C9_zero_flexible_share (List.replicate 24 (250 : ℚ)) 20 "low_intensity" none 4
    (by simp) (Or.inl rfl)

/-- C10: `n_target_hours` is not validated against [1,24]: any count above
24 raises no error; the run is identical to one with count 24 (all 24
hours selected, flexible energy divided by the 24 hours actually
selected), and energy conservation still holds. -/
theorem C10_oversized_target_count (ci_series : List ℚ) (daily_kwh flexible_share : ℚ)
    (strategy : String) (renewable_share : Option (List ℚ)) (n_target_hours : ℕ)
    (hci : ci_series.length = 24)
    (hstrat : strategy = "low_intensity" ∨
      (strategy = "max_renewable" ∧
        ∃ rs, renewable_share = some rs ∧ rs.length = 24))
    (hk : 24 < n_target_hours) :
    run_shift_scenario ci_series daily_kwh flexible_share strategy renewable_share
        n_target_hours
      = run_shift_scenario ci_series daily_kwh flexible_share strategy
          renewable_share 24 ∧
    ∃ res, run_shift_scenario ci_series daily_kwh flexible_share strategy
        renewable_share n_target_hours = .ok res ∧
      (target_hours strategy ci_series (renewable_share.getD [])
        n_target_hours).length = 24 ∧
      res.shifted_load.sum = res.baseline_load.sum := by
  rcases hstrat with hlow | ⟨hmax, rs, hrs, hrslen⟩
  · subst hlow
    have hsl : (sort_values_asc ci_series).length = 24 := by
      rw [(sort_values_asc_perm ci_series).length_eq, List.enum_length, hci]
    have hteq : ∀ r : List ℚ, target_hours "low_intensity" ci_series r n_target_hours
        = target_hours "low_intensity" ci_series r 24 := by
      intro r
      rw [target_hours_low_def, target_hours_low_def,
        List.take_of_length_le (by rw [hsl]; omega),
        List.take_of_length_le (by rw [hsl])]
    have hp := target_hours_low_props ci_series (renewable_share.getD []) n_target_hours
    have hlen24 : (target_hours "low_intensity" ci_series (renewable_share.getD [])
        n_target_hours).length = 24 := by
      rw [hp.2.2, hci]
      omega
    refine ⟨?_, _, run_shift_scenario_ok _ _ _ _ _ _ hci (Or.inl rfl), hlen24, ?_⟩
    · rw [run_shift_scenario_ok _ _ _ _ _ _ hci (Or.inl rfl),
        run_shift_scenario_ok _ _ _ _ _ _ hci (Or.inl rfl)]
      exact congrArg Except.ok (by simp only [scenario_core, hteq])
    · exact scenario_core_conservation _ _ _ _ _ _
        (fun t ht => by have hlt := hp.1 t ht; rwa [hci] at hlt)
        (by rw [hlen24]; omega)
  · subst hmax
    subst hrs
    simp only [Option.getD_some]
    have hsl : (sort_values_desc rs).length = 24 := by
      rw [sort_values_desc, List.length_reverse,
        (sort_values_asc_perm rs).length_eq, List.enum_length, hrslen]
    have hteq : target_hours "max_renewable" ci_series rs n_target_hours
        = target_hours "max_renewable" ci_series rs 24 := by
      rw [target_hours_max_def, target_hours_max_def,
        List.take_of_length_le (by rw [hsl]; omega),
        List.take_of_length_le (by rw [hsl])]
    have hp := target_hours_max_props ci_series rs n_target_hours
    have hlen24 : (target_hours "max_renewable" ci_series rs n_target_hours).length
        = 24 := by
      rw [hp.2.2, hrslen]
      omega
    refine ⟨?_, scenario_core ci_series daily_kwh flexible_share "max_renewable" rs
        n_target_hours,
      run_shift_scenario_ok _ _ _ _ _ _ hci (Or.inr ⟨rfl, by simp⟩), hlen24, ?_⟩
    · rw [run_shift_scenario_ok _ _ _ _ _ _ hci (Or.inr ⟨rfl, by simp⟩),
        run_shift_scenario_ok _ _ _ _ _ _ hci (Or.inr ⟨rfl, by simp⟩)]
      exact congrArg Except.ok
        (by simp only [Option.getD_some, scenario_core, hteq])
    · exact scenario_core_conservation _ _ _ _ _ _
        (fun t ht => by have hlt := hp.1 t ht; rwa [hrslen] at hlt)
        (by rw [hlen24]; omega)

/-- Witness for C10 at `n_target_hours = 30`. -/
theorem C10_witness :
    run_shift_scenario (List.replicate 24 (7 : ℚ)) 14 (1/2) "low_intensity" none 30
      = run_shift_scenario (List.replicate 24 (7 : ℚ)) 14 (1/2) "low_intensity"
          none 24 ∧
    ∃ res, run_shift_scenario (List.replicate 24 (7 : ℚ)) 14 (1/2) "low_intensity"
        none 30 = .ok res ∧
      (target_hours "low_intensity" (List.replicate 24 (7 : ℚ))
        ((none : Option (List ℚ)).getD []) 30).length = 24 ∧
      res.shifted_load.sum = res.baseline_load.sum :=
  C10_oversized_target_count (List.replicate 24 (7 : ℚ)) 14 (1/2) "low_intensity"
    none 30 (by simp) (Or.inl rfl) (by norm_num)

end GridCarbon
